import Mathlib

/-!
# Verification of the Raw EMG acquisition app

Shallow embedding of the EMG acquisition pipeline:
* `src/emg_sensor/emg_parser.py` — binary packet decoding,
* `src/emg_sensor/emg_sock.py` — serial command protocol,
* `src/emg_sensor/data_reader.py` — device controller state machine,
* `src/emg_reader.py` — acquisition session, sliding window and filter pipeline.

Machine integers are embedded as `ℕ`/`ℤ` with explicit bit arithmetic; signal
values are embedded as `ℚ` (the floating-point literals of the source are read
as exact rationals).  External library primitives (`numpy.convolve`,
`scipy.signal.filtfilt`/`butter`/`iirnotch`) are modelled from their documented
behaviour, as noted on each definition.
-/

/-! ## Packet decoding — `src/emg_sensor/emg_parser.py`, `parse_packet` -/

/-- `int.from_bytes(bs, byteorder="little", signed=False)`:
little-endian unsigned integer of a byte string. -/
def fromBytesLE (bs : List ℕ) : ℕ :=
  bs.foldr (fun b acc => b + 256 * acc) 0

/-- The conversion factor literal `0.0240405` (µV per LSB) read as an exact
rational. -/
def emgScale : ℚ := 240405 / 10000000

/-- `struct.unpack("<i", val.to_bytes(4, "little"))[0]`: reinterpret an
unsigned 32-bit value as a two's-complement signed 32-bit integer. -/
def toSigned32 (u : ℕ) : ℤ :=
  if u < 2 ^ 31 then (u : ℤ) else (u : ℤ) - 2 ^ 32

/-- Body of the per-channel loop of `parse_packet`: 3 bytes, little-endian,
sign-extended through `val |= 0xFF000000` when bit 23 is set, then scaled. -/
def decodeChannel (bs : List ℕ) : ℚ :=
  let val := fromBytesLE bs
  let sval : ℤ :=
    if val &&& 0x00800000 ≠ 0 then toSigned32 (val ||| 0xFF000000) else (val : ℤ)
  (sval : ℚ) * emgScale

/-- `parse_packet` of `src/emg_sensor/emg_parser.py`.  Returns the five scaled
EMG channel values and the remaining (IMU) bytes, or the `ValueError` message
for packets shorter than 15 bytes. -/
def parse_packet (packet : List ℕ) : Except String (List ℚ × List ℕ) :=
  if packet.length < 15 then .error "Incomplete packet: less than 15 bytes"
  else
    let emg_bytes := packet.take 15
    let emg_values :=
      (List.range 5).map (fun i => decodeChannel ((emg_bytes.drop (3 * i)).take 3))
    .ok (emg_values, packet.drop 15)

/-- Specification-side meaning of a 24-bit two's-complement field. -/
def toInt24 (u : ℕ) : ℤ :=
  if u < 2 ^ 23 then (u : ℤ) else (u : ℤ) - 2 ^ 24

theorem fromBytesLE_lt (bs : List ℕ) (hb : ∀ b ∈ bs, b < 256) :
    fromBytesLE bs < 256 ^ bs.length := by
  induction bs with
  | nil => simp [fromBytesLE]
  | cons b t ih =>
    have hbt : ∀ x ∈ t, x < 256 := fun x hx => hb x (List.mem_cons_of_mem _ hx)
    have hb0 : b < 256 := hb b (List.mem_cons_self _ _)
    have ht := ih hbt
    simp only [fromBytesLE, List.foldr_cons] at *
    calc b + 256 * t.foldr (fun b acc => b + 256 * acc) 0
        ≤ 255 + 256 * (256 ^ t.length - 1) := by
          have h1 : t.foldr (fun b acc => b + 256 * acc) 0 ≤ 256 ^ t.length - 1 := by
            omega
          omega
      _ < 256 ^ (b :: t).length := by
          have : 1 ≤ 256 ^ t.length := Nat.one_le_pow _ _ (by norm_num)
          simp only [List.length_cons, pow_succ]
          omega

theorem and_bit23_iff (u : ℕ) (hu : u < 2 ^ 24) :
    u &&& 0x00800000 ≠ 0 ↔ 2 ^ 23 ≤ u := by
  have h : (0x00800000 : ℕ) = 2 ^ 23 := by norm_num
  rw [h, Nat.and_two_pow]
  rcases hbit : u.testBit 23 with _ | _
  · simp only [Bool.toNat_false, Nat.zero_mul, ne_eq, not_true_eq_false, false_iff]
    rw [Nat.testBit_to_div_mod] at hbit
    simp only [decide_eq_false_iff_not] at hbit
    omega
  · simp only [Bool.toNat_true, Nat.one_mul, ne_eq]
    rw [Nat.testBit_to_div_mod] at hbit
    simp only [decide_eq_true_eq] at hbit
    constructor
    · intro _; omega
    · intro _; positivity

theorem lor_extend (u : ℕ) (hu : u < 2 ^ 24) :
    u ||| 0xFF000000 = 2 ^ 24 * 255 + u := by
  have h := Nat.mul_add_lt_is_or (i := 24) hu 255
  rw [Nat.lor_comm]
  have h255 : (0xFF000000 : ℕ) = 2 ^ 24 * 255 := by norm_num
  rw [h255, ← h]

theorem decodeChannel_eq (bs : List ℕ) (h3 : bs.length = 3)
    (hb : ∀ b ∈ bs, b < 256) :
    decodeChannel bs = (toInt24 (fromBytesLE bs) : ℚ) * emgScale := by
  have hu : fromBytesLE bs < 2 ^ 24 := by
    have := fromBytesLE_lt bs hb
    rw [h3] at this
    norm_num at this ⊢
    exact this
  simp only [decodeChannel, toInt24]
  rcases Nat.lt_or_ge (fromBytesLE bs) (2 ^ 23) with hlt | hge
  · have hand : ¬ (fromBytesLE bs &&& 0x00800000 ≠ 0) := by
      rw [and_bit23_iff _ hu]; omega
    rw [if_neg hand, if_pos hlt]
  · have hand : fromBytesLE bs &&& 0x00800000 ≠ 0 := by
      rw [and_bit23_iff _ hu]; exact hge
    have hnlt : ¬ fromBytesLE bs < 2 ^ 23 := by omega
    rw [if_pos hand, if_neg hnlt]
    rw [lor_extend _ hu]
    unfold toSigned32
    have : ¬ 2 ^ 24 * 255 + fromBytesLE bs < 2 ^ 31 := by
      have : (2:ℕ) ^ 24 * 255 = 4278190080 := by norm_num
      omega
    rw [if_neg this]
    push_cast
    ring_nf

/-- C1 — `parse_packet` decodes channel `i` from bytes `[3i, 3i+3)` as a
little-endian 24-bit two's-complement integer scaled by `0.0240405`: for every
byte buffer of length at least 15 (bytes being values `< 256`), parsing
succeeds and the `i`-th channel value (`0 ≤ i < 5`) equals
`toInt24 (fromBytesLE bytes[3i, 3i+3)) * emgScale`. -/
theorem parse_packet_decodes_channels (packet : List ℕ)
    (h15 : 15 ≤ packet.length) (hb : ∀ b ∈ packet, b < 256)
    (i : ℕ) (hi : i < 5) :
    ∃ vals rest, parse_packet packet = .ok (vals, rest) ∧ vals.length = 5 ∧
      vals.getD i 0 =
        (toInt24 (fromBytesLE ((packet.drop (3 * i)).take 3)) : ℚ) * emgScale := by
  have hnlt : ¬ packet.length < 15 := by omega
  refine ⟨_, _, by rw [parse_packet, if_neg hnlt], by simp, ?_⟩
  have hslice : ((packet.take 15).drop (3 * i)).take 3 = (packet.drop (3 * i)).take 3 := by
    rw [List.drop_take, List.take_take]
    congr 1
    omega
  have hgd : ((List.range 5).map
        (fun j => decodeChannel (((packet.take 15).drop (3 * j)).take 3))).getD i 0 =
      decodeChannel (((packet.take 15).drop (3 * i)).take 3) := by
    rw [List.getD_eq_getElem?_getD, List.getElem?_map]
    rw [List.getElem?_range hi]
    rfl
  rw [hgd, hslice]
  apply decodeChannel_eq
  · rw [List.length_take, List.length_drop]
    omega
  · intro b hbmem
    exact hb b (List.mem_of_mem_drop (List.mem_of_mem_take hbmem))

/-- Witness for C1: a concrete 15-byte packet whose channel 0 has bit 23 set
(value `0x800000`, i.e. `-2^23` in two's complement). -/
theorem parse_packet_decodes_channels_witness :
    ∃ vals rest,
      parse_packet [0, 0, 0x80, 1, 0, 0, 255, 255, 255, 0, 0, 0, 0, 0, 0] =
        .ok (vals, rest) ∧ vals.length = 5 ∧
      vals.getD 0 0 =
        (toInt24 (fromBytesLE ((([0, 0, 0x80, 1, 0, 0, 255, 255, 255, 0, 0, 0,
          0, 0, 0] : List ℕ).drop (3 * 0)).take 3)) : ℚ) * emgScale :=
  parse_packet_decodes_channels _ (by decide) (by decide) 0 (by decide)

/-! ## Serial command protocol — `src/emg_sensor/emg_sock.py`, `sock` -/

/-- The `NotImplementedError` message raised by `sock.set_frequency`. -/
def unsupportedFirmwareMsg : String :=
  "Invalid sample frequency, please update the device firmware or fall back to 250Hz."

/-- `sock.set_frequency`: flush, settle delay, write the rate-select byte
(`0x04` for 250 Hz, `0x05` for 500 Hz), settle delay, read all pending bytes
into `res`; raise `NotImplementedError` when `fs == 500` and `res` is empty.
`ackBytes` is the byte string the device has made available at the
`read_all()` call. -/
def sock_set_frequency (fs : ℕ) (ackBytes : List ℕ) : Except String Unit :=
  if fs = 500 ∧ ackBytes.length = 0 then .error unsupportedFirmwareMsg
  else .ok ()

/-- C7 — selecting 500 Hz fails with the unsupported-firmware error iff the
device returns no acknowledgment bytes after the settle delays, and selecting
250 Hz never fails for lack of acknowledgment bytes. -/
theorem set_frequency_ack_behaviour (ackBytes : List ℕ) :
    (sock_set_frequency 500 ackBytes = .error unsupportedFirmwareMsg ↔
      ackBytes.length = 0) ∧
    (ackBytes.length ≠ 0 → sock_set_frequency 500 ackBytes = .ok ()) ∧
    sock_set_frequency 250 ackBytes = .ok () := by
  refine ⟨⟨fun h => ?_, fun h => ?_⟩, fun h => ?_, ?_⟩
  · by_contra hne
    rw [sock_set_frequency, if_neg (by simp [hne])] at h
    exact Except.noConfusion h
  · rw [sock_set_frequency, if_pos ⟨rfl, h⟩]
  · rw [sock_set_frequency, if_neg (by simp [h])]
  · rw [sock_set_frequency, if_neg (by simp)]

/-- Witness for C7 at the empty and a nonempty acknowledgment byte string. -/
theorem set_frequency_ack_behaviour_witness :
    ((sock_set_frequency 500 [] = .error unsupportedFirmwareMsg ↔
        ([] : List ℕ).length = 0) ∧
      (([] : List ℕ).length ≠ 0 → sock_set_frequency 500 [] = .ok ()) ∧
      sock_set_frequency 250 [] = .ok ()) ∧
    sock_set_frequency 500 [7] = .ok () :=
  ⟨set_frequency_ack_behaviour [],
   (set_frequency_ack_behaviour [7]).2.1 (by decide)⟩

/-! ## Sample-rate selection — `src/emg_reader.py`, `EMGReader.__init__` -/

def DEFAULT_FS_EEG_HIGH : ℕ := 500
def DEFAULT_FS_IMU_HIGH : ℕ := 100
def DEFAULT_FS_EEG_LOW : ℕ := 250
def DEFAULT_FS_IMU_LOW : ℕ := 50

/-- The window duration literal `0.2` (seconds) read as an exact rational.
(The Python float products `250 * 0.2` and `500 * 0.2` are exactly `50.0` and
`100.0`, so the exact-rational reading agrees with the float computation at
both admissible sampling rates.) -/
def DEFAULT_WINDOW_DURATION : ℚ := 2 / 10

/-- Sampling-rate pair chosen by `EMGReader.__init__` from
`sample_rate_variant`: the string `"low"` selects 250/50 Hz, anything else
falls into the `else` branch selecting 500/100 Hz. -/
def select_sample_rates (sample_rate_variant : String) : ℕ × ℕ :=
  if sample_rate_variant = "low" then (DEFAULT_FS_EEG_LOW, DEFAULT_FS_IMU_LOW)
  else (DEFAULT_FS_EEG_HIGH, DEFAULT_FS_IMU_HIGH)

/-- C10 — every `sample_rate_variant` other than the exact string `"low"`
selects the high-rate configuration (EEG 500 Hz, IMU 100 Hz); only `"low"`
selects 250/50 Hz.  The selection is a total function: no branch errors. -/
theorem select_sample_rates_default_high (v : String) (h : v ≠ "low") :
    select_sample_rates v = (500, 100) ∧ select_sample_rates "low" = (250, 50) := by
  constructor
  · rw [select_sample_rates, if_neg h]
    rfl
  · rw [select_sample_rates, if_pos rfl]
    rfl

/-- Witness for C10 at the misspelled variant `"hgih"`. -/
theorem select_sample_rates_default_high_witness :
    select_sample_rates "hgih" = (500, 100) ∧
      select_sample_rates "low" = (250, 50) :=
  select_sample_rates_default_high "hgih" (by decide)

/-! ## Sliding sample window — `src/emg_reader.py`,
`EMGReader.__init__` / `_read_loop` -/

/-- `self.window_size = int(self.fs * DEFAULT_WINDOW_DURATION)`: truncation of
the product `fs * 0.2` to an integer, written over `ℕ` as `fs * 2 / 10`
(natural division truncates, and the operand is nonnegative);
`window_size_eq_floor` below relates it to the exact rational floor. -/
def window_size (fs : ℕ) : ℕ :=
  fs * 2 / 10

theorem window_size_eq_floor (fs : ℕ) :
    window_size fs = (⌊(fs : ℚ) * DEFAULT_WINDOW_DURATION⌋).toNat := by
  have h : (fs : ℚ) * DEFAULT_WINDOW_DURATION = ((fs * 2 : ℕ) : ℚ) / ((10 : ℕ) : ℚ) := by
    rw [DEFAULT_WINDOW_DURATION]
    push_cast
    ring
  rw [window_size, h, Rat.floor_natCast_div_natCast]
  omega

/-- One `append` on `collections.deque(maxlen := maxlen)`: the new element is
appended and the oldest elements are discarded from the left until the length
is at most `maxlen`. -/
def dequePush {α : Type} (maxlen : ℕ) (q : List α) (x : α) : List α :=
  let grown := q ++ [x]
  grown.drop (grown.length - maxlen)

theorem lastN_drop_append {α : Type} (w : ℕ) (l r : List α) :
    (l.drop (l.length - w) ++ r).drop
        ((l.drop (l.length - w) ++ r).length - w) =
      (l ++ r).drop ((l ++ r).length - w) := by
  have hle : l.length - w ≤ l.length := Nat.sub_le _ _
  rw [← List.drop_append_of_le_length hle, List.drop_drop]
  congr 1
  simp only [List.length_append, List.length_drop]
  omega

theorem foldl_dequePush {α : Type} (w : ℕ) (xs q : List α) :
    List.foldl (dequePush w) q xs = (q ++ xs).drop ((q ++ xs).length - w) ∨
      (List.foldl (dequePush w) q xs = q ∧ xs = []) := by
  induction xs generalizing q with
  | nil => exact Or.inr ⟨rfl, rfl⟩
  | cons x t ih =>
    left
    have step : dequePush w q x = (q ++ [x]).drop ((q ++ [x]).length - w) := rfl
    rcases ih (dequePush w q x) with h | ⟨h, ht⟩
    · rw [List.foldl_cons, h, step, lastN_drop_append]
      simp only [List.append_assoc, List.singleton_append]
    · subst ht
      rw [List.foldl_cons, List.foldl_nil]
      exact step

/-- C4 — the sample window has fixed capacity `window_size fs` (the integer
truncation of `fs * 0.2`, i.e. 50 at 250 Hz and 100 at 500 Hz), and pushing
`capacity + k` samples into the initially empty window leaves exactly the last
`capacity` samples in arrival order. -/
theorem sample_window_keeps_last (fs k : ℕ) (hfs : fs = 250 ∨ fs = 500)
    (xs : List ℚ) (hlen : xs.length = window_size fs + k) :
    List.foldl (dequePush (window_size fs)) [] xs = xs.drop k ∧
      (List.foldl (dequePush (window_size fs)) [] xs).length = window_size fs := by
  have hw : 0 < window_size fs := by
    rcases hfs with h | h <;> subst h <;> decide
  have hxs : xs ≠ [] := by
    intro hnil
    rw [hnil] at hlen
    simp at hlen
    omega
  rcases foldl_dequePush (window_size fs) xs [] with h | ⟨_, hnil⟩
  · rw [List.nil_append] at h
    constructor
    · rw [h]
      congr 1
      omega
    · rw [h, List.length_drop]
      omega
  · exact absurd hnil hxs

/-- Witness for C4: 250 Hz (capacity 50), 52 pushed samples, the last 50
remain. -/
theorem sample_window_keeps_last_witness :
    List.foldl (dequePush (window_size 250)) []
        (List.map (fun n => ((n : ℕ) : ℚ)) (List.range 52)) =
      (List.map (fun n => ((n : ℕ) : ℚ)) (List.range 52)).drop 2 ∧
    (List.foldl (dequePush (window_size 250)) []
        (List.map (fun n => ((n : ℕ) : ℚ)) (List.range 52))).length =
      window_size 250 :=
  sample_window_keeps_last 250 2 (Or.inl rfl) _
    (by rw [List.length_map, List.length_range]; decide)

/-! ## Signal-processing primitives

`scipy.signal` and `numpy` are external libraries; the spec delegates them
("a standard digital-filter design routine assumed available as a library
primitive") and explicitly does not fix the IIR coefficients.  They are
modelled here from their documented behaviour. -/

/-- Modelled from the spec: `numpy.convolve(a, v)` in full mode — the discrete
convolution `out[k] = Σ_j a[j] * v[k - j]` of length
`a.length + v.length - 1`. -/
def convolveFull (a v : List ℚ) : List ℚ :=
  (List.range (a.length + v.length - 1)).map (fun k =>
    ∑ j ∈ Finset.range (k + 1), a.getD j 0 * v.getD (k - j) 0)

/-- Modelled from the spec: `numpy.convolve(a, v, mode='same')` — the centered
slice of the full convolution: length `max a.length v.length`, starting at
offset `(min a.length v.length - 1) / 2`. -/
def convolveSame (a v : List ℚ) : List ℚ :=
  ((convolveFull a v).drop ((min a.length v.length - 1) / 2)).take
    (max a.length v.length)

/-- Sum of products of coefficients with the most recent samples. -/
def coeffDot (cs xs : List ℚ) : ℚ := (List.zipWith (· * ·) cs xs).sum

/-- One direction of IIR filtering (`scipy.signal.lfilter`, direct form I):
`a0 * y[n] = Σ_k b[k] * x[n-k] - Σ_{k ≥ 1} a[k] * y[n-k]`.  `px`/`py` hold
past inputs/outputs, most recent first. -/
def lfilterGo (b arest : List ℚ) (a0 : ℚ) :
    List ℚ → List ℚ → List ℚ → List ℚ
  | _, _, [] => []
  | px, py, x :: rest =>
    let y := (coeffDot b (x :: px) - coeffDot arest py) / a0
    y :: lfilterGo b arest a0 (x :: px) (y :: py) rest

def lfilter (b a x : List ℚ) : List ℚ :=
  lfilterGo b (a.drop 1) (a.headD 1) [] [] x

/-- Modelled from the spec: `scipy.signal.filtfilt` — zero-phase
forward-backward filtering: filter, reverse, filter, reverse (edge padding
omitted; it does not change the input/output length contract). -/
def filtfilt (b a x : List ℚ) : List ℚ :=
  (lfilter b a ((lfilter b a x).reverse)).reverse

/-- Modelled from the spec: `scipy.signal.butter(order, [low, high],
btype='band')` is an external design primitive whose numeric coefficients the
spec leaves unspecified; modelled as the identity design with the documented
coefficient shape (`2*order + 1` numerator and denominator coefficients). -/
def butter (order : ℕ) (_lowNorm _highNorm : ℚ) : List ℚ × List ℚ :=
  (1 :: List.replicate (2 * order) 0, 1 :: List.replicate (2 * order) 0)

/-- Modelled from the spec: `scipy.signal.iirnotch` — external design
primitive, coefficients unspecified by the spec; modelled as the identity
biquad (3 numerator and 3 denominator coefficients). -/
def iirnotch (_freqNorm _qualityFactor : ℚ) : List ℚ × List ℚ :=
  ([1, 0, 0], [1, 0, 0])

/-! ## Filter pipeline — `src/emg_reader.py`, `EMGFilter` -/

def FILTER_ORDER : ℕ := 4
def QUALITY_FACTOR : ℚ := 30

/-- Parameters stored by `EMGFilter.__init__`. -/
structure EMGFilterParams where
  fs : ℚ
  window_size : ℕ
  lowcut : ℚ
  highcut : ℚ
  notch_freq : ℚ
  quality_factor : ℚ

/-- The four data containers of an `EMGFilter` instance. -/
structure EMGFilterData where
  raw_data : List ℚ
  bandpassed_data : List ℚ
  notched_data : List ℚ
  envelope_data : List ℚ
deriving DecidableEq

/-- The containers right after `EMGFilter.__init__` (all empty). -/
def EMGFilterData.init : EMGFilterData := ⟨[], [], [], []⟩

/-- `EMGFilter.bandpass_filter`. -/
def bandpass_filter (p : EMGFilterParams) (data : List ℚ) : List ℚ :=
  let low_norm := 2 * p.lowcut / p.fs
  let high_norm := 2 * p.highcut / p.fs
  let ba := butter FILTER_ORDER low_norm high_norm
  filtfilt ba.1 ba.2 data

/-- `EMGFilter.notch_filter`. -/
def notch_filter (p : EMGFilterParams) (data : List ℚ) : List ℚ :=
  let freq_norm := 2 * p.notch_freq / p.fs
  let ba := iirnotch freq_norm p.quality_factor
  filtfilt ba.1 ba.2 data

/-- `EMGFilter.compute_rms_envelope`: `np.sqrt(np.convolve(rect**2,
np.ones(window_size)/window_size, mode='same'))` where `rect = np.abs(data)`.
`sqrtFn` abstracts the element-wise `np.sqrt` (the real square root has no
computable representative on `ℚ`; all claims below hold for every element-wise
map). -/
def compute_rms_envelope (sqrtFn : ℚ → ℚ) (p : EMGFilterParams)
    (data : List ℚ) : List ℚ :=
  let rect := data.map (fun x => |x|)
  (convolveSame (rect.map (fun x => x ^ 2))
    (List.replicate p.window_size ((1 : ℚ) / (p.window_size : ℚ)))).map sqrtFn

/-- `EMGFilter.process_data`: bandpass, then notch, then RMS envelope; all
four containers replaced. -/
def process_data (sqrtFn : ℚ → ℚ) (p : EMGFilterParams)
    (raw : List ℚ) : EMGFilterData :=
  let bandpassed := bandpass_filter p raw
  let notched := notch_filter p bandpassed
  { raw_data := raw
    bandpassed_data := bandpassed
    notched_data := notched
    envelope_data := compute_rms_envelope sqrtFn p notched }

/-- The spec's error taxonomy entry for short windows. -/
inductive FilterError where
  | insufficientSamples
deriving DecidableEq

/-- `EMGReader._process_emg_data`: guard on the window length, then
`self.filter.process_data(np.array(list(self.recent_points)))`.  The result
type records whether the operation fails (`.error`) or returns (`.ok`). -/
def process_emg_data (sqrtFn : ℚ → ℚ) (p : EMGFilterParams)
    (st : EMGFilterData) (recent_points : List ℚ) :
    Except FilterError EMGFilterData :=
  if recent_points.length < p.window_size then .ok st
  else .ok (process_data sqrtFn p recent_points)

/-! ### Length invariants -/

theorem lfilterGo_length (b arest : List ℚ) (a0 : ℚ) (px py xs : List ℚ) :
    (lfilterGo b arest a0 px py xs).length = xs.length := by
  induction xs generalizing px py with
  | nil => rfl
  | cons x t ih => simp only [lfilterGo, List.length_cons, ih]

theorem filtfilt_length (b a x : List ℚ) : (filtfilt b a x).length = x.length := by
  simp [filtfilt, lfilter, lfilterGo_length]

theorem convolveFull_length (a v : List ℚ) :
    (convolveFull a v).length = a.length + v.length - 1 := by
  simp [convolveFull]

theorem convolveSame_length (a v : List ℚ) (hv : 0 < v.length)
    (hle : v.length ≤ a.length) : (convolveSame a v).length = a.length := by
  simp only [convolveSame, List.length_take, List.length_drop,
    convolveFull_length]
  omega

theorem compute_rms_envelope_length (sqrtFn : ℚ → ℚ) (p : EMGFilterParams)
    (data : List ℚ) (hw : 0 < p.window_size)
    (hlen : p.window_size ≤ data.length) :
    (compute_rms_envelope sqrtFn p data).length = data.length := by
  simp only [compute_rms_envelope, List.length_map]
  rw [convolveSame_length] <;> simp [hw, hlen]

/-- C3 — on every window accepted by the pipeline (length at least
`window_size`, with a positive window size), `process_data` leaves all four
published sequences with the same length, equal to the input length. -/
theorem process_data_all_lengths_equal (sqrtFn : ℚ → ℚ)
    (p : EMGFilterParams) (raw : List ℚ) (hw : 0 < p.window_size)
    (hlen : p.window_size ≤ raw.length) :
    (process_data sqrtFn p raw).raw_data.length = raw.length ∧
    (process_data sqrtFn p raw).bandpassed_data.length = raw.length ∧
    (process_data sqrtFn p raw).notched_data.length = raw.length ∧
    (process_data sqrtFn p raw).envelope_data.length = raw.length := by
  have hbp : (bandpass_filter p raw).length = raw.length := filtfilt_length _ _ _
  have hnt : (notch_filter p (bandpass_filter p raw)).length = raw.length := by
    rw [notch_filter, filtfilt_length, hbp]
  refine ⟨rfl, hbp, hnt, ?_⟩
  rw [process_data]
  simp only []
  rw [compute_rms_envelope_length _ _ _ hw (by rw [hnt]; exact hlen), hnt]

/-- Witness for C3 at a concrete window: size-1 window, two samples. -/
theorem process_data_all_lengths_equal_witness :
    (process_data (fun q => q) ⟨250, 1, 10, 100, 50, 30⟩ [1, 2]).raw_data.length =
        ([1, 2] : List ℚ).length ∧
    (process_data (fun q => q) ⟨250, 1, 10, 100, 50, 30⟩
        [1, 2]).bandpassed_data.length = ([1, 2] : List ℚ).length ∧
    (process_data (fun q => q) ⟨250, 1, 10, 100, 50, 30⟩
        [1, 2]).notched_data.length = ([1, 2] : List ℚ).length ∧
    (process_data (fun q => q) ⟨250, 1, 10, 100, 50, 30⟩
        [1, 2]).envelope_data.length = ([1, 2] : List ℚ).length :=
  process_data_all_lengths_equal _ _ _ (by decide) (by decide)

/-! ### Short windows: silent skip, not an error (C2) -/

/-- C2 counterexample — at the 250 Hz configuration (window size 50) with an
empty window, `_process_emg_data` returns successfully with the containers
unchanged; it does not fail with `InsufficientSamples` (the guard
`if len(self.recent_points) < self.window_size: return` returns silently). -/
theorem process_emg_data_short_no_error_cex :
    process_emg_data (fun q => q) ⟨250, 50, 10, 100, 50, 30⟩
      EMGFilterData.init [] = .ok EMGFilterData.init := rfl

/-- C2 amended — on every window shorter than the configured window size the
processing operation returns successfully with the previous outputs unchanged
(a silent skip); no error is raised. -/
theorem process_emg_data_short_silently_returns (sqrtFn : ℚ → ℚ)
    (p : EMGFilterParams) (st : EMGFilterData) (pts : List ℚ)
    (h : pts.length < p.window_size) :
    process_emg_data sqrtFn p st pts = .ok st := by
  rw [process_emg_data, if_pos h]

/-- Witness for the amended C2 at a concrete short window. -/
theorem process_emg_data_short_silently_returns_witness :
    process_emg_data (fun q => q) ⟨250, 50, 10, 100, 50, 30⟩
      EMGFilterData.init [1, 2] = .ok EMGFilterData.init :=
  process_emg_data_short_silently_returns _ _ _ _ (by decide)

/-! ### The RMS envelope stage is a centered moving RMS (C8) -/

theorem replicate_getD (w : ℕ) (c : ℚ) (i : ℕ) :
    (List.replicate w c).getD i 0 = if i < w then c else 0 := by
  rw [List.getD_eq_getElem?_getD, List.getElem?_replicate]
  split <;> rfl

theorem uniform_kernel_sum (a : List ℚ) (w K : ℕ) :
    ∑ j ∈ Finset.range (K + 1),
        a.getD j 0 * (List.replicate w ((1 : ℚ) / (w : ℚ))).getD (K - j) 0 =
      (∑ t ∈ Finset.range w, if t ≤ K then a.getD (K - t) 0 else 0) / (w : ℚ) := by
  have hrefl := Finset.sum_range_reflect
      (fun j => a.getD j 0 * (List.replicate w ((1 : ℚ) / (w : ℚ))).getD (K - j) 0)
      (K + 1)
  rw [← hrefl, Finset.sum_div]
  have hL : ∀ t ∈ Finset.range (K + 1),
      a.getD (K + 1 - 1 - t) 0 *
          (List.replicate w ((1 : ℚ) / (w : ℚ))).getD (K - (K + 1 - 1 - t)) 0 =
        if t < w ∧ t ≤ K then a.getD (K - t) 0 / (w : ℚ) else 0 := by
    intro t ht
    have htK : t ≤ K := by
      have := Finset.mem_range.mp ht
      omega
    have h1 : K + 1 - 1 - t = K - t := by omega
    have h2 : K - (K - t) = t := by omega
    rw [h1, h2, replicate_getD]
    rcases Nat.lt_or_ge t w with hlt | hge
    · rw [if_pos hlt, if_pos ⟨hlt, htK⟩, mul_one_div]
    · rw [if_neg (by omega), if_neg (by omega), mul_zero]
  have hR : ∀ t ∈ Finset.range w,
      (if t ≤ K then a.getD (K - t) 0 else 0) / (w : ℚ) =
        if t < w ∧ t ≤ K then a.getD (K - t) 0 / (w : ℚ) else 0 := by
    intro t ht
    have htw : t < w := Finset.mem_range.mp ht
    rcases le_or_lt t K with hle | hgt
    · rw [if_pos hle, if_pos ⟨htw, hle⟩]
    · rw [if_neg (by omega), if_neg (by omega), zero_div]
  rw [Finset.sum_congr rfl hL, Finset.sum_congr rfl hR]
  rw [Finset.sum_subset (Finset.range_subset.mpr (le_max_left (K + 1) w))]
  · rw [Finset.sum_subset
      (Finset.range_subset.mpr (le_max_right (K + 1) w) :
        Finset.range w ⊆ Finset.range (max (K + 1) w))]
    · intro t _ hnot
      have : ¬ t < w := fun hc => hnot (Finset.mem_range.mpr hc)
      rw [if_neg (by omega)]
  · intro t _ hnot
    have : ¬ t < K + 1 := fun hc => hnot (Finset.mem_range.mpr hc)
    rw [if_neg (by omega)]

theorem convolveSame_uniform (a : List ℚ) (w : ℕ) (hw : 0 < w)
    (hle : w ≤ a.length) :
    convolveSame a (List.replicate w ((1 : ℚ) / (w : ℚ))) =
      (List.range a.length).map (fun k =>
        (∑ t ∈ Finset.range w,
          if t ≤ k + (w - 1) / 2 then a.getD (k + (w - 1) / 2 - t) 0 else 0) /
        (w : ℚ)) := by
  apply List.ext_getElem
  · rw [convolveSame_length a _ (by simpa using hw) (by simpa using hle)]
    simp
  · intro k h1 h2
    have hM : k < a.length := by
      rw [convolveSame_length a _ (by simpa using hw) (by simpa using hle)] at h1
      exact h1
    simp only [convolveSame, List.getElem_take, List.getElem_drop, convolveFull,
      List.getElem_map, List.getElem_range, List.length_replicate]
    rw [uniform_kernel_sum, min_eq_right hle, Nat.add_comm ((w - 1) / 2) k]

/-- The spec's reference RMS envelope, written directly as a centered moving
RMS: entry `k` is `sqrtFn` of the `w`-point moving average of the squared
rectified signal, window centered at `k` (right edge at `k + (w-1)/2`,
out-of-range samples contributing zero). -/
def rms_envelope_ref (sqrtFn : ℚ → ℚ) (w : ℕ) (data : List ℚ) : List ℚ :=
  let sq := data.map (fun x => |x| ^ 2)
  (List.range data.length).map (fun k =>
    sqrtFn ((∑ t ∈ Finset.range w,
      if t ≤ k + (w - 1) / 2 then sq.getD (k + (w - 1) / 2 - t) 0 else 0) /
      (w : ℚ)))

/-- C8 counterexample — `compute_rms_envelope` on an input shorter than the
window size (window size 3, one sample) returns `max(len, window)` = 3 samples,
not the input length 1: the claim's "the output has the same length as the
input" fails for such inputs (`numpy.convolve(..., mode='same')` has length
`max(M, N)`). -/
theorem rms_envelope_short_input_length_cex :
    (compute_rms_envelope (fun q => q) ⟨250, 3, 10, 100, 50, 30⟩
        [1]).length ≠ ([1] : List ℚ).length := by
  decide

/-- C8 amended — for every element-wise square root and every input of length
at least the window size, the envelope stage equals the reference centered
moving-RMS definition, and the output length equals the input length (for
shorter inputs the length is `max(input length, window size)` instead, per the
counterexample). -/
theorem compute_rms_envelope_is_centered_rms (sqrtFn : ℚ → ℚ)
    (p : EMGFilterParams) (data : List ℚ) (hw : 0 < p.window_size)
    (hlen : p.window_size ≤ data.length) :
    compute_rms_envelope sqrtFn p data =
      rms_envelope_ref sqrtFn p.window_size data ∧
    (compute_rms_envelope sqrtFn p data).length = data.length := by
  have hsq : (data.map (fun x => |x|)).map (fun x => x ^ 2) =
      data.map (fun x => |x| ^ 2) := by
    rw [List.map_map]
    rfl
  have hlen' : p.window_size ≤ (data.map (fun x => |x| ^ 2)).length := by
    rw [List.length_map]; exact hlen
  constructor
  · rw [compute_rms_envelope, rms_envelope_ref]
    simp only [hsq]
    rw [convolveSame_uniform _ _ hw hlen', List.map_map, List.length_map]
    rfl
  · exact compute_rms_envelope_length _ _ _ hw hlen

/-- Witness for the amended C8: window size 1 over two concrete samples. -/
theorem compute_rms_envelope_is_centered_rms_witness :
    compute_rms_envelope (fun q => q) ⟨250, 1, 10, 100, 50, 30⟩ [2, 3] =
      rms_envelope_ref (fun q => q) (1 : ℕ) [2, 3] ∧
    (compute_rms_envelope (fun q => q) ⟨250, 1, 10, 100, 50, 30⟩
        [2, 3]).length = ([2, 3] : List ℚ).length :=
  compute_rms_envelope_is_centered_rms _ _ _ (by decide) (by decide)

/-! ## Device controller — `src/emg_sensor/data_reader.py`, `iFocus` -/

/-- The members of the `iFocus.Dev` enum. -/
inductive DevStatus where
  | SIGNAL
  | SIGNAL_START
  | IDLE
  | IDLE_START
  | TERMINATE
  | TERMINATE_START
deriving DecidableEq

/-- The controller-side state of an `iFocus` instance: the status enum and the
stored fatal-error reason (`self.__socket_flag`, `None` when healthy). -/
structure DevState where
  status : DevStatus
  socket_flag : Option String
deriving DecidableEq

/-- Outcome of `iFocus.close_dev` on the device state: request
`TERMINATE_START` when needed and wait until the run loop closes the socket
and reaches `TERMINATE` (the bounded waits are collapsed to their terminal
outcome), then join the thread. -/
def close_dev_state (s : DevState) : DevState :=
  { s with status := .TERMINATE }

/-- `iFocus.__check_dev_status`: return normally when no fatal-error reason is
stored; otherwise close the device and raise the stored reason.  The error
value carries the message and the device state after the forced
termination. -/
def check_dev_status (s : DevState) : Except (String × DevState) DevState :=
  match s.socket_flag with
  | none => .ok s
  | some r => .error (r, close_dev_state s)

/-- `iFocus.start_acquisition_data`: check status; if already in `SIGNAL`
return; otherwise request `SIGNAL_START` and block until the internal thread
reaches `SIGNAL` or `TERMINATE` (`loopOutcome` abstracts the status the
thread eventually reaches), then check status again. -/
def start_acquisition_data (loopOutcome : DevStatus) (s : DevState) :
    Except (String × DevState) DevState :=
  match check_dev_status s with
  | .error e => .error e
  | .ok s1 =>
    if s1.status = .SIGNAL then .ok s1
    else check_dev_status { s1 with status := loopOutcome }

/-- `iFocus.stop_acquisition`: check status; request `IDLE_START` and block
until the internal thread reaches `IDLE` or `TERMINATE` (`loopOutcome`), then
check status again. -/
def stop_acquisition (loopOutcome : DevStatus) (s : DevState) :
    Except (String × DevState) DevState :=
  match check_dev_status s with
  | .error e => .error e
  | .ok s1 => check_dev_status { s1 with status := loopOutcome }

/-- `iFocus.close_dev`: unlike the two operations above it performs no
fatal-error check and never raises; it always force-terminates. -/
def close_dev (s : DevState) : Except (String × DevState) DevState :=
  .ok (close_dev_state s)

/-- C6 counterexample — `close_dev` on a device with a stored fatal-error
reason returns successfully (it contains no `__check_dev_status` call); the
claim that every public operation, including close, fails with the stored
reason is false. -/
theorem close_dev_ignores_stored_fault_cex :
    close_dev ⟨.IDLE, some "Data transmission error: boom"⟩ =
      .ok ⟨.TERMINATE, some "Data transmission error: boom"⟩ := rfl

/-- C6 amended — `start_acquisition_data` and `stop_acquisition` first check
the stored fatal-error reason and, when one is set, force-terminate and fail
with it; `close_dev` force-terminates unconditionally and returns successfully
without checking or raising the stored reason. -/
theorem stored_fault_checked_on_start_stop (s : DevState) (r : String)
    (o o' : DevStatus) (h : s.socket_flag = some r) :
    start_acquisition_data o s = .error (r, close_dev_state s) ∧
    stop_acquisition o' s = .error (r, close_dev_state s) ∧
    close_dev s = .ok (close_dev_state s) := by
  have hc : check_dev_status s = .error (r, close_dev_state s) := by
    rw [check_dev_status, h]
  exact ⟨by simp only [start_acquisition_data, hc],
    by simp only [stop_acquisition, hc], rfl⟩

/-- Witness for the amended C6 at a concrete faulted device state. -/
theorem stored_fault_checked_on_start_stop_witness :
    start_acquisition_data .SIGNAL ⟨.IDLE, some "Connection lost."⟩ =
      .error ("Connection lost.", close_dev_state ⟨.IDLE, some "Connection lost."⟩) ∧
    stop_acquisition .IDLE ⟨.IDLE, some "Connection lost."⟩ =
      .error ("Connection lost.", close_dev_state ⟨.IDLE, some "Connection lost."⟩) ∧
    close_dev ⟨.IDLE, some "Connection lost."⟩ =
      .ok (close_dev_state ⟨.IDLE, some "Connection lost."⟩) :=
  stored_fault_checked_on_start_stop _ "Connection lost." .SIGNAL .IDLE rfl

/-! ## Acquisition-loop exit — `iFocus.__recv_data`, lines 195-205 (C5) -/

/-- Joint state of the frame parser's partial-byte buffer and the frame queue
(`self.__save_data`); queue entries are either a parsed batch of frames or the
`None` sentinel. -/
structure RecvState where
  parserBuf : List ℕ
  saveQueue : List (Option (List (List ℚ)))
deriving DecidableEq

/-- Modelled from the spec: `Parser.clear_buffer` (`iFocusParser.py` is not
under `src/`); per the spec, it clears the parser's partial-byte buffer. -/
def clear_buffer (s : RecvState) : RecvState :=
  { s with parserBuf := [] }

/-- `self.__save_data.put(None)` — the end-of-stream sentinel push. -/
def put_sentinel (s : RecvState) : RecvState :=
  { s with saveQueue := s.saveQueue ++ [none] }

/-- The cleanup loop `while not self.__save_data.empty():
self.__save_data.get_nowait()`. -/
def drain_queue {α : Type} : List α → List α
  | [] => []
  | _ :: t => drain_queue t

/-- Lines 195-205 of `iFocus.__recv_data`, executed whenever the acquisition
loop leaves `Signal` (modelled sequentially, with no concurrently racing
consumer): clear the parser buffer, push the sentinel, then drain the queue
until empty. -/
def recv_data_exit (s : RecvState) : RecvState :=
  let s1 := clear_buffer s
  let s2 := put_sentinel s1
  { s2 with saveQueue := drain_queue s2.saveQueue }

theorem drain_queue_eq_nil {α : Type} (l : List α) : drain_queue l = [] := by
  induction l with
  | nil => rfl
  | cons x t ih => exact ih

/-- C5 counterexample — after the exit sequence runs on a concrete state (a
pending batch in the queue, partial bytes in the buffer), no sentinel is left
on the queue: the cleanup loop drains the sentinel it just pushed, so the
claim that a sentinel marker is left on the frame queue is false. -/
theorem recv_exit_sentinel_not_left_cex :
    ¬ (none ∈ (recv_data_exit ⟨[1, 2], [some [[5]]]⟩).saveQueue) := by
  decide

/-- C5 amended — on every loop exit the parser's partial-byte buffer is
cleared and the sentinel is pushed (it momentarily sits at the queue's tail),
but the immediately following cleanup loop drains the queue, so the final
queue is empty and no end-of-stream marker remains for a consumer. -/
theorem recv_exit_clears_buffer_and_drains_queue (s : RecvState) :
    (put_sentinel (clear_buffer s)).saveQueue.getLast? = some none ∧
    (recv_data_exit s).parserBuf = [] ∧
    (recv_data_exit s).saveQueue = [] := by
  refine ⟨?_, rfl, ?_⟩
  · simp [put_sentinel, clear_buffer]
  · simp [recv_data_exit, put_sentinel, clear_buffer, drain_queue_eq_nil]

/-! ## Session control — `src/emg_reader.py`, `EMGReader` (C9) -/

/-- The session-level state of an `EMGReader`: the `running` flag, the sample
window and the device state. -/
structure ReaderState where
  running : Bool
  recent_points : List ℚ
  device : DevState
deriving DecidableEq

/-- `EMGReader.start_reading`: early return when already running; otherwise
set `running`, start device acquisition (`loopOutcome` abstracts the
controller thread's eventual status) and launch the read thread. -/
def start_reading (loopOutcome : DevStatus) (s : ReaderState) :
    Except (String × ReaderState) ReaderState :=
  if s.running then .ok s
  else
    let s1 := { s with running := true }
    match start_acquisition_data loopOutcome s1.device with
    | .error (r, d) => .error (r, { s1 with device := d })
    | .ok d => .ok { s1 with device := d }

/-- `EMGReader.stop_reading`: early return when not running; otherwise clear
`running`, join the read thread (bounded wait), stop acquisition, close the
device and clear the sample window. -/
def stop_reading (loopOutcome : DevStatus) (s : ReaderState) :
    Except (String × ReaderState) ReaderState :=
  if !s.running then .ok s
  else
    let s1 := { s with running := false }
    match stop_acquisition loopOutcome s1.device with
    | .error (r, d) => .error (r, { s1 with device := d })
    | .ok d =>
      match close_dev d with
      | .error (r, d2) => .error (r, { s1 with device := d2 })
      | .ok d2 => .ok { s1 with device := d2, recent_points := [] }

/-- C9 — `start_reading` on an already-running session and `stop_reading` on
an already-stopped session are successful no-ops: both return `.ok` with the
session state unchanged. -/
theorem start_stop_idempotent (s t : ReaderState) (o o' : DevStatus)
    (hs : s.running = true) (ht : t.running = false) :
    start_reading o s = .ok s ∧ stop_reading o' t = .ok t := by
  constructor
  · rw [start_reading, if_pos hs]
  · simp only [stop_reading, ht, Bool.not_false, if_pos]

/-- Witness for C9 at concrete running and stopped session states. -/
theorem start_stop_idempotent_witness :
    start_reading .SIGNAL ⟨true, [], ⟨.SIGNAL, none⟩⟩ =
      .ok ⟨true, [], ⟨.SIGNAL, none⟩⟩ ∧
    stop_reading .IDLE ⟨false, [1], ⟨.IDLE, none⟩⟩ =
      .ok ⟨false, [1], ⟨.IDLE, none⟩⟩ :=
  start_stop_idempotent _ _ .SIGNAL .IDLE rfl rfl
